import Mathlib

/-!
Verification development for the `luup` streaming chat client and agentic
orchestration loop (`src/src-tauri/src/ollama.rs` and `src/src-tauri/src/agent.rs`).

The Rust code is shallowly embedded: byte streams become `List Nat` chunks,
`serde_json` parsing becomes an executable fuel-based JSON parser over
`List Char`, the `futures::stream::unfold` NDJSON decoder `parse_stream`
becomes a recursive function over the chunk list, and the `process_action`
drain loop becomes a fold over the decoded item list that threads `GameState`
and the text accumulators while collecting the emitted `AgentMessage`s.
-/

namespace Luup

/-! ### JSON values (`serde_json::Value`)

Numbers are kept as their source lexeme: no claim inspects numeric values,
and `Value::as_str`/`get` treat numbers opaquely. Objects keep fields in
parse order; key lookup takes the last binding, matching `BTreeMap` insert
semantics (later duplicate keys overwrite earlier ones). -/

inductive Json where
  | null
  | bool (b : Bool)
  | num (lexeme : String)
  | str (s : String)
  | arr (elems : List Json)
  | obj (fields : List (String × Json))
deriving Repr

/-- `Value::get(key)`: field lookup, `Some` only on objects (last binding wins). -/
def Json.getKey (j : Json) (key : String) : Option Json :=
  match j with
  | .obj fields => fields.foldl (fun acc p => if p.1 = key then some p.2 else acc) none
  | _ => none

/-- `Value::as_str`. -/
def Json.asStr : Json → Option String
  | .str s => some s
  | _ => none

/-- `Value::as_array`. -/
def Json.asArray : Json → Option (List Json)
  | .arr elems => some elems
  | _ => none

/-- `Value::as_bool` (used to model `serde` decoding a `bool` field). -/
def Json.asBool : Json → Option Bool
  | .bool b => some b
  | _ => none

/-! ### JSON text parser (`serde_json::from_str`)

Executable recursive-descent parser over `List Char`, total via a fuel
counter; the entry point supplies enough fuel (every recursive call first
consumes at least one character, so `length + 2` can never run out). -/

/-- JSON insignificant whitespace (space, tab, line feed, carriage return). -/
def jsonWs (c : Char) : Bool := c = ' ' || c = '\t' || c = '\n' || c = '\r'

def skipJsonWs (cs : List Char) : List Char := cs.dropWhile jsonWs

def hexDigit (c : Char) : Option Nat :=
  if '0' ≤ c ∧ c ≤ '9' then some (c.toNat - '0'.toNat)
  else if 'a' ≤ c ∧ c ≤ 'f' then some (c.toNat - 'a'.toNat + 10)
  else if 'A' ≤ c ∧ c ≤ 'F' then some (c.toNat - 'A'.toNat + 10)
  else none

/-- Four hex digits of a `\uXXXX` escape, returning the code unit and the rest. -/
def hex4 : List Char → Option (Nat × List Char)
  | a :: b :: c :: d :: rest => do
    let va ← hexDigit a
    let vb ← hexDigit b
    let vc ← hexDigit c
    let vd ← hexDigit d
    pure (((va * 16 + vb) * 16 + vc) * 16 + vd, rest)
  | _ => none

/-- Body of a JSON string after the opening quote. Escapes follow RFC 8259 as
`serde_json` accepts them: the eight single-character escapes and `\uXXXX`,
with surrogate pairs combined and lone surrogates rejected; unescaped control
characters below `0x20` are rejected. -/
def jsonStrBody : Nat → List Char → List Char → Option (String × List Char)
  | 0, _, _ => none
  | _ + 1, [], _ => none
  | fuel + 1, c :: rest, acc =>
    if c = '"' then some (⟨acc.reverse⟩, rest)
    else if c = '\\' then
      match rest with
      | [] => none
      | e :: rest1 =>
        if e = '"' then jsonStrBody fuel rest1 ('"' :: acc)
        else if e = '\\' then jsonStrBody fuel rest1 ('\\' :: acc)
        else if e = '/' then jsonStrBody fuel rest1 ('/' :: acc)
        else if e = 'b' then jsonStrBody fuel rest1 (Char.ofNat 8 :: acc)
        else if e = 'f' then jsonStrBody fuel rest1 (Char.ofNat 12 :: acc)
        else if e = 'n' then jsonStrBody fuel rest1 ('\n' :: acc)
        else if e = 'r' then jsonStrBody fuel rest1 (Char.ofNat 13 :: acc)
        else if e = 't' then jsonStrBody fuel rest1 ('\t' :: acc)
        else if e = 'u' then
          match hex4 rest1 with
          | none => none
          | some (n, rest2) =>
            if 0xD800 ≤ n ∧ n ≤ 0xDBFF then
              match rest2 with
              | '\\' :: 'u' :: rest3 =>
                match hex4 rest3 with
                | some (n2, rest4) =>
                  if 0xDC00 ≤ n2 ∧ n2 ≤ 0xDFFF then
                    jsonStrBody fuel rest4
                      (Char.ofNat (0x10000 + (n - 0xD800) * 1024 + (n2 - 0xDC00)) :: acc)
                  else none
                | none => none
              | _ => none
            else if 0xDC00 ≤ n ∧ n ≤ 0xDFFF then none
            else jsonStrBody fuel rest2 (Char.ofNat n :: acc)
        else none
    else if c.toNat < 0x20 then none
    else jsonStrBody fuel rest (c :: acc)

/-- JSON number lexeme: `-? (0 | [1-9][0-9]*) (. [0-9]+)? ([eE][+-]?[0-9]+)?`. -/
def jsonNumLex (cs : List Char) : Option (String × List Char) :=
  let (sign, cs1) : List Char × List Char :=
    match cs with
    | '-' :: r => (['-'], r)
    | _ => ([], cs)
  match cs1 with
  | [] => none
  | c :: _ =>
    if ¬ c.isDigit then none
    else
      let intPart : List Char :=
        if c = '0' then ['0'] else cs1.takeWhile Char.isDigit
      let cs2 := cs1.drop intPart.length
      let (fracPart, cs3) : List Char × List Char :=
        match cs2 with
        | '.' :: r =>
          let ds := r.takeWhile Char.isDigit
          if ds.isEmpty then ([], cs2) else ('.' :: ds, r.drop ds.length)
        | _ => ([], cs2)
      -- a '.' not followed by a digit is a parse error, not an empty fraction
      if fracPart.isEmpty ∧ cs2.head? = some '.' then none
      else
        match cs3 with
        | e :: r =>
          if e = 'e' ∨ e = 'E' then
            let (esign, r1) : List Char × List Char :=
              match r with
              | '+' :: r2 => (['+'], r2)
              | '-' :: r2 => (['-'], r2)
              | _ => ([], r)
            let ds := r1.takeWhile Char.isDigit
            if ds.isEmpty then none
            else some (⟨sign ++ intPart ++ fracPart ++ e :: esign ++ ds⟩, r1.drop ds.length)
          else some (⟨sign ++ intPart ++ fracPart⟩, cs3)
        | [] => some (⟨sign ++ intPart ++ fracPart⟩, cs3)

mutual

def jsonVal : Nat → List Char → Option (Json × List Char)
  | 0, _ => none
  | fuel + 1, cs =>
    match skipJsonWs cs with
    | [] => none
    | c :: rest =>
      if c = '{' then
        match skipJsonWs rest with
        | '}' :: rest1 => some (Json.obj [], rest1)
        | _ => (jsonMembers fuel rest).map (fun p => (Json.obj p.1, p.2))
      else if c = '[' then
        match skipJsonWs rest with
        | ']' :: rest1 => some (Json.arr [], rest1)
        | _ => (jsonElems fuel rest).map (fun p => (Json.arr p.1, p.2))
      else if c = '"' then
        (jsonStrBody (rest.length + 1) rest []).map (fun p => (Json.str p.1, p.2))
      else if c = 't' then
        match rest with
        | 'r' :: 'u' :: 'e' :: r => some (Json.bool true, r)
        | _ => none
      else if c = 'f' then
        match rest with
        | 'a' :: 'l' :: 's' :: 'e' :: r => some (Json.bool false, r)
        | _ => none
      else if c = 'n' then
        match rest with
        | 'u' :: 'l' :: 'l' :: r => some (Json.null, r)
        | _ => none
      else if c = '-' ∨ c.isDigit then
        (jsonNumLex (c :: rest)).map (fun p => (Json.num p.1, p.2))
      else none

def jsonElems : Nat → List Char → Option (List Json × List Char)
  | 0, _ => none
  | fuel + 1, cs =>
    match jsonVal fuel cs with
    | none => none
    | some (v, cs1) =>
      match skipJsonWs cs1 with
      | ',' :: rest => (jsonElems fuel rest).map (fun p => (v :: p.1, p.2))
      | ']' :: rest => some ([v], rest)
      | _ => none

def jsonMembers : Nat → List Char → Option (List (String × Json) × List Char)
  | 0, _ => none
  | fuel + 1, cs =>
    match skipJsonWs cs with
    | '"' :: rest =>
      match jsonStrBody (rest.length + 1) rest [] with
      | none => none
      | some (key, cs1) =>
        match skipJsonWs cs1 with
        | ':' :: cs2 =>
          match jsonVal fuel cs2 with
          | none => none
          | some (v, cs3) =>
            match skipJsonWs cs3 with
            | ',' :: rest2 => (jsonMembers fuel rest2).map (fun p => ((key, v) :: p.1, p.2))
            | '}' :: rest2 => some ([(key, v)] , rest2)
            | _ => none
        | _ => none
    | _ => none

end

/-- `serde_json::from_str::<Value>`: one JSON value, surrounded by optional
whitespace, covering the whole input. -/
def Json.parse (s : String) : Option Json :=
  match jsonVal (s.data.length + 2) s.data with
  | some (j, rest) => if (skipJsonWs rest).isEmpty then some j else none
  | none => none

/-! ### Typed stream chunks (`ollama.rs`) -/

/-- `ChatMessage { role, content }`. -/
structure ChatMessage where
  role : String
  content : String
deriving Repr, DecidableEq

/-- `OllamaStreamChunk`: the NDJSON line envelope
`{model, created_at, message?, done, done_reason?}`. -/
structure OllamaStreamChunk where
  model : String
  created_at : String
  message : Option ChatMessage
  done : Bool
  done_reason : Option String
deriving Repr, DecidableEq

/-- `StreamChunk`: typed protocol events produced by the decoder
(the spec's ProtocolEvent). -/
inductive StreamChunk where
  | TextChunk (content : String)
  | ReasoningChunk (content : String)
  | ToolCall (name : String) (arguments : Json)
  | Done
deriving Repr

/-! ### `serde` derive semantics for the envelope structs

`#[derive(Deserialize)]` requires a JSON object, demands every
non-`Option` field with the declared type, treats an `Option` field as
`None` when absent or `null`, and ignores unknown fields. -/

/-- `serde` decoding of `ChatMessage` from a JSON value. -/
def decodeChatMessage (j : Json) : Option ChatMessage :=
  match j with
  | Json.obj _ =>
    match (j.getKey "role").bind Json.asStr, (j.getKey "content").bind Json.asStr with
    | some role, some content => some ⟨role, content⟩
    | _, _ => none
  | _ => none

/-- `serde` decoding of an `Option<ChatMessage>` field. -/
def decodeMessageField : Option Json → Option (Option ChatMessage)
  | none => some none
  | some Json.null => some none
  | some j => (decodeChatMessage j).map some

/-- `serde` decoding of an `Option<String>` field. -/
def decodeOptStrField : Option Json → Option (Option String)
  | none => some none
  | some Json.null => some none
  | some (Json.str s) => some (some s)
  | some _ => none

/-- `serde` decoding of `OllamaStreamChunk` from a JSON value. -/
def decodeChunkJson (j : Json) : Option OllamaStreamChunk :=
  match j with
  | Json.obj _ =>
    match (j.getKey "model").bind Json.asStr, (j.getKey "created_at").bind Json.asStr,
          (j.getKey "done").bind Json.asBool, decodeMessageField (j.getKey "message"),
          decodeOptStrField (j.getKey "done_reason") with
    | some model, some created_at, some done, some message, some done_reason =>
      some ⟨model, created_at, message, done, done_reason⟩
    | _, _, _, _, _ => none
  | _ => none

/-- `serde_json::from_str::<OllamaStreamChunk>(&line)`. -/
def parseOllamaChunk (line : String) : Option OllamaStreamChunk :=
  (Json.parse line).bind decodeChunkJson

/-! ### String helpers used by the Rust code -/

/-- `str::starts_with(pat)`. -/
def startsWithStr (s pat : String) : Bool := pat.data.isPrefixOf s.data

/-- Substring search over a character list (`str::contains(pat)` helper). -/
def infixCh (pat : List Char) : List Char → Bool
  | [] => pat.isEmpty
  | l@(_ :: rest) => pat.isPrefixOf l || infixCh pat rest

/-- `str::contains(pat)` for a string pattern. -/
def containsStr (s pat : String) : Bool := infixCh pat.data s.data

/-! ### Per-line decoding logic of `parse_stream` (ollama.rs:147-201) -/

/-- What one decoded NDJSON line contributes to the output stream:
an event, nothing (keep accumulating), or a decode failure. -/
inductive LineResult where
  | event (chunk : StreamChunk)
  | skip
  | error (msg : String)
deriving Repr

/-- The tool-call probe (ollama.rs:157-176): try to parse `content` itself as
JSON; on success, look for a `tool_calls` array whose first element carries
`function.name` (a string) and `function.arguments`; any failure along the way
falls through to the plain-text handling. -/
def tryToolCall (content : String) : Option StreamChunk :=
  match Json.parse content with
  | none => none
  | some contentJson =>
    match contentJson.getKey "tool_calls" with
    | none => none
    | some toolCalls =>
      match toolCalls.asArray with
      | none => none
      | some callArray =>
        match callArray.head? with
        | none => none
        | some firstCall =>
          match ((firstCall.getKey "function").bind (fun f => f.getKey "name")).bind Json.asStr,
                (firstCall.getKey "function").bind (fun f => f.getKey "arguments") with
          | some name, some args => some (StreamChunk.ToolCall name args)
          | _, _ => none

/-- Decoding of one complete NDJSON line (ollama.rs:147-201): parse the
envelope (malformed line: decode error); `done` lines yield `Done`; otherwise
probe the message content for a tool call, then classify non-empty content as
reasoning (starts with `"<think>"` or contains `"reasoning:"`) or text; empty
content yields nothing. -/
def processLine (line : String) : LineResult :=
  match parseOllamaChunk line with
  | none => LineResult.error "Failed to parse JSON"
  | some chunk =>
    if chunk.done then LineResult.event StreamChunk.Done
    else
      match chunk.message with
      | none => LineResult.skip
      | some message =>
        match tryToolCall message.content with
        | some toolCall => LineResult.event toolCall
        | none =>
          if message.content = "" then LineResult.skip
          else if startsWithStr message.content "<think>" ||
                  containsStr message.content "reasoning:" then
            LineResult.event (StreamChunk.ReasoningChunk message.content)
          else
            LineResult.event (StreamChunk.TextChunk message.content)

/-! ### Bytes and UTF-8 (`String::from_utf8_lossy`) -/

/-- UTF-8 encoding of one scalar value (to build byte-level inputs). -/
def encodeChar (c : Char) : List Nat :=
  let n := c.toNat
  if n < 0x80 then [n]
  else if n < 0x800 then [0xC0 + n / 64, 0x80 + n % 64]
  else if n < 0x10000 then [0xE0 + n / 4096, 0x80 + (n / 64) % 64, 0x80 + n % 64]
  else [0xF0 + n / 262144, 0x80 + (n / 4096) % 64, 0x80 + (n / 64) % 64, 0x80 + n % 64]

/-- UTF-8 encoding of a string as a byte list. -/
def strBytes (s : String) : List Nat := s.data.foldr (fun c acc => encodeChar c ++ acc) []

/-- Is `b` a UTF-8 continuation byte (`0x80..0xBF`)? -/
def isCont (b : Nat) : Bool := 0x80 ≤ b ∧ b ≤ 0xBF

/-- `String::from_utf8_lossy`: decode well-formed UTF-8 sequences, replace each
maximal invalid subpart with U+FFFD. Fuel-based; every recursive call consumes
at least one byte, so `length + 1` fuel always suffices. -/
def utf8LossyAux : Nat → List Nat → List Char
  | 0, _ => []
  | _ + 1, [] => []
  | fuel + 1, b :: rest =>
    if b < 0x80 then Char.ofNat b :: utf8LossyAux fuel rest
    else if 0xC2 ≤ b ∧ b ≤ 0xDF then
      match rest with
      | [] => [Char.ofNat 0xFFFD]
      | b1 :: rest1 =>
        if isCont b1 then Char.ofNat ((b - 0xC0) * 64 + (b1 - 0x80)) :: utf8LossyAux fuel rest1
        else Char.ofNat 0xFFFD :: utf8LossyAux fuel rest
    else if 0xE0 ≤ b ∧ b ≤ 0xEF then
      match rest with
      | [] => [Char.ofNat 0xFFFD]
      | b1 :: rest1 =>
        let ok1 : Bool :=
          if b = 0xE0 then 0xA0 ≤ b1 ∧ b1 ≤ 0xBF
          else if b = 0xED then 0x80 ≤ b1 ∧ b1 ≤ 0x9F
          else isCont b1
        if ¬ ok1 then Char.ofNat 0xFFFD :: utf8LossyAux fuel rest
        else
          match rest1 with
          | [] => [Char.ofNat 0xFFFD]
          | b2 :: rest2 =>
            if isCont b2 then
              Char.ofNat ((b - 0xE0) * 4096 + (b1 - 0x80) * 64 + (b2 - 0x80)) ::
                utf8LossyAux fuel rest2
            else Char.ofNat 0xFFFD :: utf8LossyAux fuel rest1
    else if 0xF0 ≤ b ∧ b ≤ 0xF4 then
      match rest with
      | [] => [Char.ofNat 0xFFFD]
      | b1 :: rest1 =>
        let ok1 : Bool :=
          if b = 0xF0 then 0x90 ≤ b1 ∧ b1 ≤ 0xBF
          else if b = 0xF4 then 0x80 ≤ b1 ∧ b1 ≤ 0x8F
          else isCont b1
        if ¬ ok1 then Char.ofNat 0xFFFD :: utf8LossyAux fuel rest
        else
          match rest1 with
          | [] => [Char.ofNat 0xFFFD]
          | b2 :: rest2 =>
            if ¬ isCont b2 then Char.ofNat 0xFFFD :: utf8LossyAux fuel rest1
            else
              match rest2 with
              | [] => [Char.ofNat 0xFFFD]
              | b3 :: rest3 =>
                if isCont b3 then
                  Char.ofNat ((b - 0xF0) * 262144 + (b1 - 0x80) * 4096 +
                      (b2 - 0x80) * 64 + (b3 - 0x80)) :: utf8LossyAux fuel rest3
                else Char.ofNat 0xFFFD :: utf8LossyAux fuel rest2
    else Char.ofNat 0xFFFD :: utf8LossyAux fuel rest

/-- `String::from_utf8_lossy` on a byte list. -/
def utf8Lossy (bytes : List Nat) : String := ⟨utf8LossyAux (bytes.length + 1) bytes⟩

/-! ### The NDJSON stream decoder `parse_stream` (ollama.rs:128-220)

The Rust `futures::stream::unfold` state is the pair (transport stream,
accumulation buffer). Each poll of the produced stream awaits the *next
transport item first*: the buffer is examined only when a chunk arrives, and
at most one buffered line is decoded per arriving chunk; when the transport
ends, whatever remains buffered is never examined. The embedding makes the
transport a list of items (bytes, or a transport error) and returns the whole
list of yielded items in order. -/

/-- `parse_stream`, given the transport items and the current buffer.
Mirrors ollama.rs:133-219 step for step: a transport error is yielded and the
state kept; on bytes, the buffer is extended, and if it now holds a newline
the first line is drained (newline included), lossily decoded, and processed;
a line that yields nothing resumes awaiting the next transport item. -/
def parse_stream : List (Except String (List Nat)) → List Nat →
    List (Except String StreamChunk)
  | [], _ => []
  | Except.error e :: rest, buffer =>
    Except.error ("Stream error: " ++ e) :: parse_stream rest buffer
  | Except.ok bytes :: rest, buffer =>
    let buf := buffer ++ bytes
    match buf.findIdx? (fun b => b = 10) with
    | none => parse_stream rest buf
    | some newlinePos =>
      let line := utf8Lossy (buf.take (newlinePos + 1))
      let buf2 := buf.drop (newlinePos + 1)
      match processLine line with
      | LineResult.skip => parse_stream rest buf2
      | LineResult.error msg => Except.error msg :: parse_stream rest buf2
      | LineResult.event ev => Except.ok ev :: parse_stream rest buf2

/-! ### Game state and agent events (`agent.rs`) -/

/-- `GameState { time, location, outfit }`. -/
structure GameState where
  time : String
  location : String
  outfit : String
deriving Repr, DecidableEq

/-- `AgentMessage`: events streamed to the frontend (the spec's TurnEvent). -/
inductive AgentMessage where
  | TextChunk (content : String)
  | ReasoningChunk (content : String)
  | ToolCall (name : String) (args : Json)
  | ToolResult (name : String) (result : GameState)
  | Choices (choices : List String)
  | TurnComplete (turn_number : Nat) (story_text : String) (choices : List String)
      (game_state : GameState)
  | Error (message : String)
deriving Repr

/-- Is this event the `TurnComplete` variant? If so, its choice list. -/
def tcChoices : AgentMessage → Option (List String)
  | AgentMessage.TurnComplete _ _ choices _ => some choices
  | _ => none

/-- Is this event the `Error` variant? -/
def isErrorMsg : AgentMessage → Bool
  | AgentMessage.Error _ => true
  | _ => false

/-! ### Tool execution (agent.rs:185-218)

The Rust function takes `&mut GameState` and returns `Result<(), _>`; the
embedding returns the result together with the state the reference holds
after the call, so the mutation (or its absence) is explicit. Each arm reads
the required argument with `arguments.get(field).and_then(|v| v.as_str())`
and assigns the field verbatim on success; every failing arm performs no
assignment. -/

def execute_tool (tool_name : String) (arguments : Json) (state : GameState) :
    Except String Unit × GameState :=
  if tool_name = "set_time" then
    match (arguments.getKey "time").bind Json.asStr with
    | some time => (Except.ok (), { state with time := time })
    | none => (Except.error "Missing 'time' argument", state)
  else if tool_name = "set_location" then
    match (arguments.getKey "location").bind Json.asStr with
    | some location => (Except.ok (), { state with location := location })
    | none => (Except.error "Missing 'location' argument", state)
  else if tool_name = "set_outfit" then
    match (arguments.getKey "outfit").bind Json.asStr with
    | some outfit => (Except.ok (), { state with outfit := outfit })
    | none => (Except.error "Missing 'outfit' argument", state)
  else (Except.error ("Unknown tool: " ++ tool_name), state)

/-! ### Choice extraction (agent.rs:262-289) -/

/-- `str::lines()` splitter: split a character list at every `'\n'`. -/
def splitNl : List Char → List Char → List String
  | [], acc => [⟨acc.reverse⟩]
  | c :: rest, acc =>
    if c = '\n' then (⟨acc.reverse⟩ : String) :: splitNl rest [] else splitNl rest (c :: acc)

/-- `str::lines()`: split on `'\n'`, with no empty trailing line and at most
one trailing `'\r'` stripped from each line. -/
def rustLines (s : String) : List String :=
  let parts := splitNl s.data []
  let parts := if parts.getLast? = some "" then parts.dropLast else parts
  parts.map (fun l => if l.data.getLast? = some '\r' then ⟨l.data.dropLast⟩ else l)

/-- `str::trim()`: drop whitespace from both ends. -/
def strTrim (s : String) : String :=
  ⟨((s.data.dropWhile Char.isWhitespace).reverse.dropWhile Char.isWhitespace).reverse⟩

/-- `str::strip_prefix(pat)`: the remainder when `pat` leads, else `none`. -/
def dropPre (s pat : String) : Option String :=
  if pat.data.isPrefixOf s.data then some ⟨s.data.drop pat.data.length⟩ else none

/-- One loop iteration of `extract_choices` (agent.rs:266-276): trim the line,
try the `1.`/`1)`/`1:` prefixes, else the `2` forms, else the `3` forms; a
match captures the trimmed remainder. -/
def lineChoice (line : String) : Option String :=
  let trimmed := strTrim line
  match dropPre trimmed "1." <|> dropPre trimmed "1)" <|> dropPre trimmed "1:" with
  | some rest => some (strTrim rest)
  | none =>
    match dropPre trimmed "2." <|> dropPre trimmed "2)" <|> dropPre trimmed "2:" with
    | some rest => some (strTrim rest)
    | none =>
      match dropPre trimmed "3." <|> dropPre trimmed "3)" <|> dropPre trimmed "3:" with
      | some rest => some (strTrim rest)
      | none => none

/-- The scanning pass of `extract_choices`: fold over the lines, pushing each
captured choice in order of appearance. -/
def scanChoices (text : String) : List String :=
  (rustLines text).foldl
    (fun choices line =>
      match lineChoice line with
      | some choice => choices ++ [choice]
      | none => choices)
    []

/-- `extract_choices` (agent.rs:262-289): scan for numbered lines; if fewer
than 3 were recovered, replace everything with the fixed defaults; truncate
to 3. -/
def extract_choices (text : String) : List String :=
  let choices := scanChoices text
  let choices :=
    if choices.length < 3 then
      ["Continue exploring", "Examine your surroundings carefully", "Take a different approach"]
    else choices
  choices.take 3

/-! ### The orchestration loop `process_action` (agent.rs:73-182)

The embedding covers the call once the chat stream has been opened (an open
failure returns before any event is emitted); the stream's decoded items are
the input list. The `while let` drain loop becomes `drainStream`, returning
the emitted events together with the final game state and the two text
accumulators. -/

/-- The drain loop (agent.rs:104-157). Text and reasoning chunks are appended
to their accumulators and forwarded; a tool call is announced, executed, and
followed by `ToolResult` on success or `Error` on failure (non-fatal); `Done`
breaks; a stream error emits `Error` and breaks. -/
def drainStream : List (Except String StreamChunk) → GameState → String → String →
    List AgentMessage × GameState × String × String
  | [], state, accText, accReasoning => ([], state, accText, accReasoning)
  | item :: rest, state, accText, accReasoning =>
    match item with
    | Except.ok (StreamChunk.TextChunk content) =>
      let r := drainStream rest state (accText ++ content) accReasoning
      (AgentMessage.TextChunk content :: r.1, r.2)
    | Except.ok (StreamChunk.ReasoningChunk content) =>
      let r := drainStream rest state accText (accReasoning ++ content)
      (AgentMessage.ReasoningChunk content :: r.1, r.2)
    | Except.ok (StreamChunk.ToolCall name arguments) =>
      match execute_tool name arguments state with
      | (Except.ok _, state1) =>
        let r := drainStream rest state1 accText accReasoning
        (AgentMessage.ToolCall name arguments :: AgentMessage.ToolResult name state1 :: r.1, r.2)
      | (Except.error e, state1) =>
        let r := drainStream rest state1 accText accReasoning
        (AgentMessage.ToolCall name arguments ::
          AgentMessage.Error ("Tool execution failed: " ++ e) :: r.1, r.2)
    | Except.ok StreamChunk.Done => ([], state, accText, accReasoning)
    | Except.error e =>
      ([AgentMessage.Error ("Stream error: " ++ e)], state, accText, accReasoning)

/-- `format_user_message` (agent.rs:247-259). -/
def format_user_message (action : String) (state : GameState) : String :=
  "Current State:\n- Time: " ++ state.time ++ "\n- Location: " ++ state.location ++
    "\n- Outfit: " ++ state.outfit ++ "\n\nPlayer Action: " ++ action ++
    "\n\nContinue the story based on this action. Remember to provide exactly 3 choices and use tools to update state if appropriate."

/-- Result of one `process_action` call: the events emitted via `emit`, in
order; the final game state behind the caller's `&mut`; the conversation
history after the call. -/
structure TurnOutput where
  events : List AgentMessage
  state : GameState
  history : List ChatMessage
deriving Repr

/-- `process_action` (agent.rs:73-182) after the stream opened: push the user
message, drain the stream, persist non-empty accumulated text as an assistant
message, extract choices, emit exactly one final `TurnComplete`, return `Ok`. -/
def process_action (history : List ChatMessage) (action : String) (state : GameState)
    (turn_number : Nat) (items : List (Except String StreamChunk)) : TurnOutput :=
  let history1 := history ++ [⟨"user", format_user_message action state⟩]
  let r := drainStream items state "" ""
  let events := r.1
  let state1 := r.2.1
  let accText := r.2.2.1
  let history2 :=
    if accText = "" then history1 else history1 ++ [⟨"assistant", accText⟩]
  let choices := extract_choices accText
  { events := events ++
      [AgentMessage.TurnComplete turn_number accText choices state1],
    state := state1,
    history := history2 }

/-! ## Helper lemmas -/

/-- The choice-scanning fold pushes exactly the per-line matches, in order. -/
theorem foldl_push_filterMap (ls : List String) (acc : List String) :
    ls.foldl
      (fun choices line =>
        match lineChoice line with
        | some choice => choices ++ [choice]
        | none => choices)
      acc = acc ++ ls.filterMap lineChoice := by
  induction ls generalizing acc with
  | nil => simp
  | cons l ls ih =>
    simp only [List.foldl_cons, List.filterMap_cons]
    cases h : lineChoice l with
    | none => simp [h, ih]
    | some c => simp [h, ih]

/-- `extract_choices` always returns exactly 3 entries. -/
theorem extract_choices_length (text : String) : (extract_choices text).length = 3 := by
  unfold extract_choices
  by_cases h : (scanChoices text).length < 3
  · simp [h]
  · simp only [h, if_false, List.length_take]
    omega

/-- The drain loop never emits a `TurnComplete` event. -/
theorem drain_no_turn_complete (items : List (Except String StreamChunk)) :
    ∀ (st : GameState) (accT accR : String) (m : AgentMessage),
      m ∈ (drainStream items st accT accR).1 → tcChoices m = none := by
  induction items with
  | nil => intro st accT accR m hm; simp [drainStream] at hm
  | cons item rest ih =>
    intro st accT accR m hm
    cases item with
    | error e =>
      simp only [drainStream, List.mem_singleton] at hm
      subst hm; rfl
    | ok c =>
      cases c with
      | TextChunk s =>
        simp only [drainStream, List.mem_cons] at hm
        rcases hm with rfl | hm2
        · rfl
        · exact ih _ _ _ _ hm2
      | ReasoningChunk s =>
        simp only [drainStream, List.mem_cons] at hm
        rcases hm with rfl | hm2
        · rfl
        · exact ih _ _ _ _ hm2
      | Done => simp [drainStream] at hm
      | ToolCall n args =>
        rcases h : execute_tool n args st with ⟨res, st1⟩
        cases res with
        | ok u =>
          simp only [drainStream, h, List.mem_cons] at hm
          rcases hm with rfl | rfl | hm2
          · rfl
          · rfl
          · exact ih _ _ _ _ hm2
        | error e =>
          simp only [drainStream, h, List.mem_cons] at hm
          rcases hm with rfl | rfl | hm2
          · rfl
          · rfl
          · exact ih _ _ _ _ hm2

/-! ## Claims -/

/-- Claim C2, counterexample: the claim says choices are ordered by the numeric
value of the prefix, so the text with lines `2. B`, `1. A`, `3. C` would yield
`["A", "B", "C"]`; `extract_choices` instead yields them in order of appearance. -/
theorem C2_numeric_order_refuted :
    extract_choices "2. B\n1. A\n3. C" = ["B", "A", "C"] ∧
    (["B", "A", "C"] : List String) ≠ ["A", "B", "C"] :=
  ⟨rfl, by decide⟩

/-- Claim C2 (amended): choice extraction scans line by line, trims each line,
matches a literal `1.`/`1)`/`1:` (correspondingly `2`, `3`) prefix and captures
the trimmed remainder, in order of appearance of the matching lines in the
text (the scan is exactly a `filterMap` of the per-line matcher over the
lines); the spec's own positive example holds, and the reordered text yields
the choices in appearance order. -/
theorem C2_choices_in_appearance_order :
    (∀ text : String, scanChoices text = (rustLines text).filterMap lineChoice) ∧
    extract_choices "You enter the hall.\n1. Go left\n2. Go right\n3. Wait" =
      ["Go left", "Go right", "Wait"] ∧
    extract_choices "2. B\n1. A\n3. C" = ["B", "A", "C"] := by
  refine ⟨fun text => ?_, rfl, rfl⟩
  simpa using foldl_push_filterMap (rustLines text) []

/-- Claim C6: if the line scan recovers fewer than 3 choices, all partial
results are discarded for the fixed 3-element fallback (so `1. A` and `2. B`
alone yield the fallback, not a 2-element list), and `extract_choices` returns
exactly 3 choices for every input. -/
theorem C6_fallback_and_exactly_three :
    (∀ text : String, (scanChoices text).length < 3 →
        extract_choices text =
          ["Continue exploring", "Examine your surroundings carefully",
            "Take a different approach"]) ∧
    (∀ text : String, (extract_choices text).length = 3) ∧
    extract_choices "1. A\n2. B" =
      ["Continue exploring", "Examine your surroundings carefully",
        "Take a different approach"] := by
  refine ⟨fun text h => ?_, extract_choices_length, rfl⟩
  simp [extract_choices, h]

/-- Claim C6, witness: the two-choice text falls under the fallback branch. -/
theorem C6_fallback_witness :
    (scanChoices "1. A\n2. B").length < 3 ∧
    extract_choices "1. A\n2. B" =
      ["Continue exploring", "Examine your surroundings carefully",
        "Take a different approach"] :=
  ⟨by decide, C6_fallback_and_exactly_three.1 "1. A\n2. B" (by decide)⟩

/-- Claim C9: whenever `execute_tool` fails (unknown tool, or the required
argument absent or not string-typed), the whole `GameState` is returned
unchanged; and an argument that is present but not a string is rejected with
the same missing-argument error, for each of the three tools. -/
theorem C9_error_leaves_state_unchanged :
    (∀ (name : String) (args : Json) (st : GameState) (e : String) (st2 : GameState),
        execute_tool name args st = (Except.error e, st2) → st2 = st) ∧
    (∀ (args : Json) (st : GameState) (v : Json),
        args.getKey "time" = some v → v.asStr = none →
        execute_tool "set_time" args st = (Except.error "Missing 'time' argument", st)) ∧
    (∀ (args : Json) (st : GameState) (v : Json),
        args.getKey "location" = some v → v.asStr = none →
        execute_tool "set_location" args st =
          (Except.error "Missing 'location' argument", st)) ∧
    (∀ (args : Json) (st : GameState) (v : Json),
        args.getKey "outfit" = some v → v.asStr = none →
        execute_tool "set_outfit" args st =
          (Except.error "Missing 'outfit' argument", st)) := by
  refine ⟨?_, ?_, ?_, ?_⟩
  · intro name args st e st2 h
    unfold execute_tool at h
    repeat' split at h
    all_goals simp_all
  · intro args st v h1 h2
    simp [execute_tool, h1, h2]
  · intro args st v h1 h2
    simp [execute_tool, h1, h2]
  · intro args st v h1 h2
    simp [execute_tool, h1, h2]

/-- Claim C9, witness: an unknown tool and a non-string `time` argument both
fail and leave the state exactly as it was. -/
theorem C9_witness :
    (execute_tool "teleport" Json.null ⟨"Morning", "Room", "Cloak"⟩ =
        (Except.error "Unknown tool: teleport", ⟨"Morning", "Room", "Cloak"⟩) ∧
      (⟨"Morning", "Room", "Cloak"⟩ : GameState) = ⟨"Morning", "Room", "Cloak"⟩) ∧
    ((Json.obj [("time", Json.num "3")]).getKey "time" = some (Json.num "3") ∧
      (Json.num "3").asStr = none ∧
      execute_tool "set_time" (Json.obj [("time", Json.num "3")])
          ⟨"Morning", "Room", "Cloak"⟩ =
        (Except.error "Missing 'time' argument", ⟨"Morning", "Room", "Cloak"⟩)) :=
  ⟨⟨rfl, C9_error_leaves_state_unchanged.1 "teleport" Json.null ⟨"Morning", "Room", "Cloak"⟩
      "Unknown tool: teleport" ⟨"Morning", "Room", "Cloak"⟩ rfl⟩,
    rfl, rfl,
    C9_error_leaves_state_unchanged.2.1 (Json.obj [("time", Json.num "3")])
      ⟨"Morning", "Room", "Cloak"⟩ (Json.num "3") rfl rfl⟩

/-- Claim C10: a successful `set_time` (resp. `set_location`, `set_outfit`)
with a string-typed argument sets exactly the corresponding field to that
string and keeps the other two fields at their prior values. -/
theorem C10_success_modifies_only_field :
    (∀ (args : Json) (st : GameState) (v : Json) (s : String),
        args.getKey "time" = some v → v.asStr = some s →
        execute_tool "set_time" args st = (Except.ok (), { st with time := s })) ∧
    (∀ (args : Json) (st : GameState) (v : Json) (s : String),
        args.getKey "location" = some v → v.asStr = some s →
        execute_tool "set_location" args st = (Except.ok (), { st with location := s })) ∧
    (∀ (args : Json) (st : GameState) (v : Json) (s : String),
        args.getKey "outfit" = some v → v.asStr = some s →
        execute_tool "set_outfit" args st = (Except.ok (), { st with outfit := s })) := by
  refine ⟨?_, ?_, ?_⟩ <;>
    (intro args st v s h1 h2; simp [execute_tool, h1, h2])

/-- Claim C10, witness: `set_outfit` with a string argument updates only the
outfit field. -/
theorem C10_witness :
    (Json.obj [("outfit", Json.str "Armor")]).getKey "outfit" = some (Json.str "Armor") ∧
    (Json.str "Armor").asStr = some "Armor" ∧
    execute_tool "set_outfit" (Json.obj [("outfit", Json.str "Armor")])
        ⟨"Morning", "Room", "Cloak"⟩ =
      (Except.ok (), ⟨"Morning", "Room", "Armor"⟩) :=
  ⟨rfl, rfl,
    C10_success_modifies_only_field.2.2 (Json.obj [("outfit", Json.str "Armor")])
      ⟨"Morning", "Room", "Cloak"⟩ (Json.str "Armor") "Armor" rfl rfl⟩

/-- Claim C4: every `process_action` invocation that reaches its stream (the
only failure point precedes all events) emits exactly one `TurnComplete`, it
is the last event emitted, and its choice list has exactly 3 elements. -/
theorem C4_one_final_turn_complete (history : List ChatMessage) (action : String)
    (st : GameState) (turn : Nat) (items : List (Except String StreamChunk)) :
    ((process_action history action st turn items).events.countP
        (fun m => (tcChoices m).isSome)) = 1 ∧
    (((process_action history action st turn items).events.getLast?).bind tcChoices).map
        List.length = some 3 := by
  constructor
  · simp only [process_action, List.countP_append]
    have h0 : ((drainStream items st "" "").1.countP (fun m => (tcChoices m).isSome)) = 0 := by
      rw [List.countP_eq_zero]
      intro m hm
      simp [drain_no_turn_complete items st "" "" m hm]
    rw [h0]
    simp [List.countP_cons, tcChoices]
  · simp only [process_action, List.getLast?_concat]
    simp [tcChoices, extract_choices_length]

/-- Claim C7: a `set_outfit` tool invocation whose arguments lack the
`outfit` field is announced, then produces exactly one `Error` event whose
message names the missing field, the game state is left exactly as it was,
and the turn continues: the rest of the stream is processed as if the failed
invocation were absent, and the turn still ends in `TurnComplete`. -/
theorem C7_missing_outfit_is_nonfatal (history : List ChatMessage) (action : String)
    (st : GameState) (turn : Nat) (args : Json) (rest : List (Except String StreamChunk))
    (h : args.getKey "outfit" = none) :
    (process_action history action st turn
        (Except.ok (StreamChunk.ToolCall "set_outfit" args) :: rest)).events =
      AgentMessage.ToolCall "set_outfit" args ::
        AgentMessage.Error "Tool execution failed: Missing 'outfit' argument" ::
        (process_action history action st turn rest).events ∧
    (process_action history action st turn
        (Except.ok (StreamChunk.ToolCall "set_outfit" args) :: rest)).state =
      (process_action history action st turn rest).state ∧
    containsStr "Tool execution failed: Missing 'outfit' argument" "outfit" = true ∧
    (process_action history action st turn
        [Except.ok (StreamChunk.ToolCall "set_outfit" args),
          Except.ok StreamChunk.Done]).state = st ∧
    ((process_action history action st turn
        [Except.ok (StreamChunk.ToolCall "set_outfit" args),
          Except.ok StreamChunk.Done]).events.countP isErrorMsg) = 1 := by
  have hex : execute_tool "set_outfit" args st =
      (Except.error "Missing 'outfit' argument", st) := by
    simp [execute_tool, h]
  refine ⟨?_, ?_, by decide, ?_, ?_⟩
  · simp [process_action, drainStream, hex]
  · simp [process_action, drainStream, hex]
  · simp [process_action, drainStream, hex]
  · simp [process_action, drainStream, hex, List.countP_cons, List.countP_append,
      isErrorMsg]

/-- Claim C7, witness: an empty-object argument on `set_outfit`, followed by
end of stream, at the initial game state. -/
theorem C7_witness :
    (Json.obj []).getKey "outfit" = none ∧
    (process_action [] "look around" ⟨"Morning", "Mysterious Room", "Cloak"⟩ 1
        [Except.ok (StreamChunk.ToolCall "set_outfit" (Json.obj [])),
          Except.ok StreamChunk.Done]).state = ⟨"Morning", "Mysterious Room", "Cloak"⟩ :=
  ⟨rfl,
    (C7_missing_outfit_is_nonfatal [] "look around" ⟨"Morning", "Mysterious Room", "Cloak"⟩
      1 (Json.obj []) [Except.ok StreamChunk.Done] rfl).2.2.2.1⟩

/-! ## Concrete NDJSON lines for decoder claims -/

/-- An NDJSON line carrying plain text content `"Hi"`. -/
def lineText : String :=
  "\x7b\"model\":\"m\",\"created_at\":\"c\",\"done\":false,\"message\":\x7b\"role\":\"assistant\",\"content\":\"Hi\"\x7d\x7d\n"

/-- An NDJSON line with `done:true`. -/
def lineDone : String :=
  "\x7b\"model\":\"m\",\"created_at\":\"c\",\"done\":true\x7d\n"

/-- The spec's tool-call message content
(a `tool_calls` payload encoded as JSON inside the content string). -/
def toolContent : String :=
  "\x7b\"tool_calls\":[\x7b\"function\":\x7b\"name\":\"set_time\",\"arguments\":\x7b\"time\":\"Night\"\x7d\x7d\x7d]\x7d"

/-- An NDJSON line whose message content is `toolContent` (quotes escaped as
they would be inside the JSON string field). -/
def lineTool : String :=
  "\x7b\"model\":\"m\",\"created_at\":\"c\",\"done\":false,\"message\":\x7b\"role\":\"assistant\",\"content\":\"\x7b\\\"tool_calls\\\":[\x7b\\\"function\\\":\x7b\\\"name\\\":\\\"set_time\\\",\\\"arguments\\\":\x7b\\\"time\\\":\\\"Night\\\"\x7d\x7d\x7d]\x7d\"\x7d\x7d\n"

/-- The parsed form of `toolContent`. -/
def toolContentJson : Json :=
  Json.obj [("tool_calls", Json.arr [Json.obj [("function",
    Json.obj [("name", Json.str "set_time"),
      ("arguments", Json.obj [("time", Json.str "Night")])])]])]

/-- Claim C1: the claim demands that every byte-chunking of an NDJSON body
yield the same event sequence as single-chunk delivery. The decoder examines
its buffer only when a transport chunk arrives and decodes at most one line
per arrival, so delivering two lines in one chunk drops the second line: the
single-chunk run yields one event where the split run yields two. -/
theorem C1_single_chunk_drops_second_line :
    parse_stream [Except.ok (strBytes (lineText ++ lineDone))] [] =
      [Except.ok (StreamChunk.TextChunk "Hi")] ∧
    parse_stream [Except.ok (strBytes lineText), Except.ok (strBytes lineDone)] [] =
      [Except.ok (StreamChunk.TextChunk "Hi"), Except.ok StreamChunk.Done] ∧
    (parse_stream [Except.ok (strBytes (lineText ++ lineDone))] []).length ≠
      (parse_stream [Except.ok (strBytes lineText),
        Except.ok (strBytes lineDone)] []).length :=
  ⟨rfl, rfl, by decide⟩

/-- Claim C3, counterexample: after a `done:true` line the decoder does not
stop; a later line delivered in a later chunk yields a further event, so the
output is not the single `EndOfStream` the claim requires. -/
theorem C3_event_after_done_refuted :
    parse_stream [Except.ok (strBytes lineDone), Except.ok (strBytes lineText)] [] =
      [Except.ok StreamChunk.Done, Except.ok (StreamChunk.TextChunk "Hi")] ∧
    parse_stream [Except.ok (strBytes lineDone), Except.ok (strBytes lineText)] [] ≠
      [Except.ok StreamChunk.Done] := by
  have e1 : parse_stream [Except.ok (strBytes lineDone), Except.ok (strBytes lineText)] [] =
      [Except.ok StreamChunk.Done, Except.ok (StreamChunk.TextChunk "Hi")] := rfl
  refine ⟨e1, fun h => ?_⟩
  rw [e1] at h
  simp at h

/-- Claim C3 (amended): a decoded line with `done == true` yields exactly the
one `Done` event for that line, whatever the rest of the line holds; and if
the stream simply closes after that line, the decoder emits nothing further
and no error. (The decoder does not itself terminate: lines delivered in
later chunks are still decoded and may yield further events.) -/
theorem C3_done_line_amended :
    (∀ (line : String) (chunk : OllamaStreamChunk),
        parseOllamaChunk line = some chunk → chunk.done = true →
        processLine line = LineResult.event StreamChunk.Done) ∧
    (∀ (bytes buffer : List Nat) (pos : Nat),
        (buffer ++ bytes).findIdx? (fun b => b = 10) = some pos →
        processLine (utf8Lossy ((buffer ++ bytes).take (pos + 1))) =
          LineResult.event StreamChunk.Done →
        parse_stream [Except.ok bytes] buffer = [Except.ok StreamChunk.Done]) := by
  constructor
  · intro line chunk h1 h2
    simp [processLine, h1, h2]
  · intro bytes buffer pos h1 h2
    simp [parse_stream, h1, h2]

/-- Claim C3, witness: the concrete `done:true` line, delivered as the only
chunk before the stream closes, yields exactly one `Done` and no error. -/
theorem C3_done_line_witness :
    parseOllamaChunk lineDone = some ⟨"m", "c", none, true, none⟩ ∧
    processLine lineDone = LineResult.event StreamChunk.Done ∧
    (([] : List Nat) ++ strBytes lineDone).findIdx? (fun b => b = 10) = some 42 ∧
    parse_stream [Except.ok (strBytes lineDone)] [] = [Except.ok StreamChunk.Done] :=
  ⟨rfl,
    C3_done_line_amended.1 lineDone ⟨"m", "c", none, true, none⟩ rfl rfl,
    rfl,
    C3_done_line_amended.2 (strBytes lineDone) [] 42 rfl rfl⟩

/-- Claim C5: a decoded line whose message content parses as JSON with a
`tool_calls` array takes the first element only, extracts its function name
and arguments, and yields exactly a `ToolCall` event with the arguments
passed through as-is (so no `TextChunk` for such a line). -/
theorem C5_first_tool_call_extracted
    (line : String) (chunk : OllamaStreamChunk) (m : ChatMessage)
    (contentJson toolCalls firstCall fn nameVal args : Json)
    (callList : List Json) (name : String)
    (h1 : parseOllamaChunk line = some chunk)
    (h2 : chunk.done = false)
    (h3 : chunk.message = some m)
    (h4 : Json.parse m.content = some contentJson)
    (h5 : contentJson.getKey "tool_calls" = some toolCalls)
    (h6 : toolCalls.asArray = some callList)
    (h7 : callList.head? = some firstCall)
    (h8 : firstCall.getKey "function" = some fn)
    (h9 : fn.getKey "name" = some nameVal)
    (h10 : nameVal.asStr = some name)
    (h11 : fn.getKey "arguments" = some args) :
    processLine line = LineResult.event (StreamChunk.ToolCall name args) := by
  have ht : tryToolCall m.content = some (StreamChunk.ToolCall name args) := by
    simp [tryToolCall, h4, h5, h6, h7, h8, h9, h10, h11]
  simp [processLine, h1, h2, h3, ht]

set_option maxRecDepth 100000 in
/-- Claim C5, witness: the spec's concrete tool-call content yields
`ToolCall "set_time"` with arguments `time = "Night"` and nothing else. -/
theorem C5_tool_call_witness :
    Json.parse toolContent = some toolContentJson ∧
    processLine lineTool =
      LineResult.event (StreamChunk.ToolCall "set_time"
        (Json.obj [("time", Json.str "Night")])) :=
  ⟨rfl,
    C5_first_tool_call_extracted lineTool
      ⟨"m", "c", some ⟨"assistant", toolContent⟩, false, none⟩
      ⟨"assistant", toolContent⟩
      toolContentJson
      (Json.arr [Json.obj [("function", Json.obj [("name", Json.str "set_time"),
        ("arguments", Json.obj [("time", Json.str "Night")])])]])
      (Json.obj [("function", Json.obj [("name", Json.str "set_time"),
        ("arguments", Json.obj [("time", Json.str "Night")])])])
      (Json.obj [("name", Json.str "set_time"),
        ("arguments", Json.obj [("time", Json.str "Night")])])
      (Json.str "set_time")
      (Json.obj [("time", Json.str "Night")])
      [Json.obj [("function", Json.obj [("name", Json.str "set_time"),
        ("arguments", Json.obj [("time", Json.str "Night")])])]]
      "set_time"
      rfl rfl rfl rfl rfl rfl rfl rfl rfl rfl rfl⟩

/-- Claim C8: a decoded line with non-empty content that is not a tool-call
payload is classified as reasoning exactly when the content starts with
`"<think>"` or contains `"reasoning:"`, and as plain text otherwise. -/
theorem C8_content_classification
    (line : String) (chunk : OllamaStreamChunk) (m : ChatMessage)
    (h1 : parseOllamaChunk line = some chunk)
    (h2 : chunk.done = false)
    (h3 : chunk.message = some m)
    (h4 : tryToolCall m.content = none)
    (h5 : m.content ≠ "") :
    processLine line =
      LineResult.event
        (if startsWithStr m.content "<think>" || containsStr m.content "reasoning:" then
          StreamChunk.ReasoningChunk m.content
        else StreamChunk.TextChunk m.content) := by
  cases hc : startsWithStr m.content "<think>" || containsStr m.content "reasoning:" with
  | false => simp [processLine, h1, h2, h3, h4, h5, hc]
  | true => simp [processLine, h1, h2, h3, h4, h5, hc]

/-- Claim C8, witness: the plain-text line classifies as a `TextChunk`. -/
theorem C8_classification_witness :
    tryToolCall "Hi" = none ∧ ("Hi" : String) ≠ "" ∧
    processLine lineText = LineResult.event (StreamChunk.TextChunk "Hi") := by
  refine ⟨rfl, by decide, ?_⟩
  exact C8_content_classification lineText
    ⟨"m", "c", some ⟨"assistant", "Hi"⟩, false, none⟩ ⟨"assistant", "Hi"⟩
    rfl rfl rfl rfl (by decide)

end Luup
